import Mathlib

/-!
# wksctl: the RPM package resource (`pkg/plan/resource/rpm.go`) and the seed-node
orchestration (`cmd/wksctl/apply/apply.go`)

A shallow embedding of the RPM resource of wksctl, of the parts of the Go
standard library it calls, and of `Applier.initiateCluster`, followed by theorems
about their behaviour.

Conventions of the embedding:

* a Go `string` is a Lean `String`; `fmt.Sprintf` with `%s` verbs is `++`;
* a Go `error` is an `Option String`: `none` is `nil`, `some m` is an error
  whose `Error()` text is `m`;
* a `plan.Runner` is a function from the command and the state of the host to
  the output, the error and the next state of the host; every `RunCommand`
  call is recorded in a log, so that "the commands sent to the runner" is the
  log of the world after the call;
* a Go run-time panic (index out of range) is the `panic` case of `Outcome`;
* contexts and tracing spans have no effect on the results and are left out.
-/

set_option autoImplicit false

namespace Wksctl

/-! ## Go values -/

/-- Go's `error`: `none` is `nil`, `some m` is an error with text `m`. -/
abbrev error := Option String

/-- Result of a Go function that may end in a run-time panic. -/
inductive Outcome (α : Type) where
  | ret (a : α)
  | panic (msg : String)
deriving DecidableEq, Repr

/-! ## Package `strings` -/

namespace strings

/-- Go `strings.HasPrefix(s, prefix)`. -/
def HasPrefix (s pre : String) : Bool :=
  pre.data.isPrefixOf s.data

/-- Substring test on character lists: `sub` occurs in `s` at some position. -/
def containsChars : List Char → List Char → Bool
  | [], sub => sub.isEmpty
  | c :: cs, sub => sub.isPrefixOf (c :: cs) || containsChars cs sub

/-- Go `strings.Contains(s, substr)`. -/
def Contains (s substr : String) : Bool :=
  containsChars s.data substr.data

/-- Splitting a character list at every occurrence of the character `sep`. -/
def splitChars (sep : Char) : List Char → List (List Char)
  | [] => [[]]
  | c :: cs =>
    if c = sep then [] :: splitChars sep cs
    else
      match splitChars sep cs with
      | [] => [[c]]
      | w :: ws => (c :: w) :: ws

/-- Go `strings.Split(s, " ")`: the substrings between the spaces of `s`. -/
def SplitSpace (s : String) : List String :=
  (splitChars ' ' s.data).map String.mk

end strings

/-! ## Package `plan`: states, diffs, runners -/

namespace plan

/-- Modelled from the spec: the type `plan.State` of package `pkg/plan`, which
is not part of the sources at hand. A state is a mapping from attribute name
to scalar value; the RPM resource reads the string attributes `name`,
`version` and `release` only, so values are strings here (a boolean attribute
is kept as the string `true`). The mapping is an association list in which
the first binding of a key is the one that counts. -/
abbrev State := List (String × String)

/-- Modelled from the spec: `plan.EmptyState`, the distinguished state of a
resource that is not present. -/
def EmptyState : State := []

/-- Modelled from the spec: `State.IsEmpty`, true for the state without any
attribute. -/
def State.IsEmpty (s : State) : Bool := s.isEmpty

/-- Modelled from the spec: `State.String(key)`, the string value of the
attribute `key`, the empty string when the attribute is absent. -/
def State.String (s : State) (key : String) : String :=
  match s.lookup key with
  | some v => v
  | none => ""

/-- Modelled from the spec: `plan.Diff`; `CurrentState` is the only field the
RPM resource reads. -/
structure Diff where
  CurrentState : State
deriving DecidableEq, Repr

/-- Modelled from the spec: `plan.Runner`. `RunCommand` takes the command and
the state of the host and gives the output, the error and the next state of
the host. -/
abbrev Runner (σ : Type) := String → σ → (String × error) × σ

/-- The host behind a runner together with the log of the commands sent. -/
structure World (σ : Type) where
  host : σ
  log : List String
deriving DecidableEq, Repr

/-- One call `r.RunCommand(ctx, cmd, nil)`: the command is logged and the
host moves on. -/
def RunCommand {σ : Type} (r : Runner σ) (cmd : String) (w : World σ) :
    (String × error) × World σ :=
  ((r cmd w.host).1, { host := (r cmd w.host).2, log := w.log ++ [cmd] })

end plan

/-! ## Package `version` (github.com/cavaliercoder/go-rpm) -/

namespace version

/-- The Go interface `version.Interface`: what the comparison can observe
of a package. -/
structure Interface where
  Name : String
  Epoch : Int
  Version : String
  Release : String
deriving DecidableEq, Repr

/-- A letter of the pattern class `[a-zA-Z]`. -/
def isAlpha (c : Char) : Bool :=
  (97 ≤ c.toNat && c.toNat ≤ 122) || (65 ≤ c.toNat && c.toNat ≤ 90)

/-- A digit of the pattern class `[0-9]`. -/
def isDigit (c : Char) : Bool :=
  48 ≤ c.toNat && c.toNat ≤ 57

/-- The run of letters (`true`) or digits (`false`) being read, if any, as a
finished segment. -/
def flush : Option (Bool × List Char) → List (List Char)
  | none => []
  | some (_, acc) => [acc]

/-- All matches of the pattern `([a-zA-Z]+)|([0-9]+)|(~)` in a character list,
from left to right; `cur` is the run of letters or digits read so far. -/
def segmentsAux : List Char → Option (Bool × List Char) → List (List Char)
  | [], cur => flush cur
  | c :: cs, cur =>
    if isAlpha c then
      match cur with
      | some (true, acc) => segmentsAux cs (some (true, acc ++ [c]))
      | _ => flush cur ++ segmentsAux cs (some (true, [c]))
    else if isDigit c then
      match cur with
      | some (false, acc) => segmentsAux cs (some (false, acc ++ [c]))
      | _ => flush cur ++ segmentsAux cs (some (false, [c]))
    else if c = '~' then flush cur ++ [['~']] ++ segmentsAux cs none
    else flush cur ++ segmentsAux cs none

/-- The alphabetic, numeric and tilde segments of a version string. -/
def segments (s : String) : List (List Char) := segmentsAux s.data none

/-- Go's `<` on strings, character by character. -/
def ltChars : List Char → List Char → Bool
  | [], [] => false
  | [], _ :: _ => true
  | _ :: _, [] => false
  | a :: as, b :: bs =>
    if a.toNat < b.toNat then true
    else if b.toNat < a.toNat then false
    else ltChars as bs

/-- Whether a segment starts with the character `c`. -/
def startsWith (c : Char) (seg : List Char) : Bool :=
  match seg with
  | [] => false
  | x :: _ => x == c

/-- Whether a segment starts with a digit. -/
def startsNumeric (seg : List Char) : Bool :=
  match seg with
  | [] => false
  | x :: _ => isDigit x

/-- The comparison of two lists of segments, segment by segment. -/
def compareSegments : List (List Char) → List (List Char) → Int
  | [], [] => 0
  | a :: _, [] => if startsWith '~' a then -1 else 1
  | [], b :: _ => if startsWith '~' b then 1 else -1
  | a :: as, b :: bs =>
    if (startsWith '~' a || startsWith '~' b) && !startsWith '~' a then 1
    else if (startsWith '~' a || startsWith '~' b) && !startsWith '~' b then -1
    else if startsNumeric a && !startsNumeric b then 1
    else if !startsNumeric a && startsNumeric b then -1
    else
      let a1 := if startsNumeric a then a.dropWhile (· == '0') else a
      let b1 := if startsNumeric a then b.dropWhile (· == '0') else b
      if startsNumeric a && a1.length > b1.length then 1
      else if startsNumeric a && b1.length > a1.length then -1
      else if ltChars a1 b1 then -1
      else if ltChars b1 a1 then 1
      else compareSegments as bs

/-- Modelled from the spec: the library function `version.CompareVersions` of
github.com/cavaliercoder/go-rpm, which is not part of the sources at hand: the
package ecosystem's native ordering of version strings (the rpm version
comparison: segments of digits compare as numbers, segments of letters as
strings, a number is newer than letters, more segments are newer, a tilde
sorts before everything), not the lexical order of strings. -/
def CompareVersions (a b : String) : Int :=
  if a = b then 0 else compareSegments (segments a) (segments b)

/-- Modelled from the spec: the library function `version.Compare` of
github.com/cavaliercoder/go-rpm, which is not part of the sources at hand:
epoch first, then version, then release. -/
def Compare (a b : Interface) : Int :=
  if a.Epoch ≠ b.Epoch then (if a.Epoch > b.Epoch then 1 else -1)
  else if CompareVersions a.Version b.Version ≠ 0 then CompareVersions a.Version b.Version
  else CompareVersions a.Release b.Release

end version

/-! ## The RPM resource -/

/-- RPM represents an RPM package. -/
structure RPM where
  Name : String
  Version : String := ""
  Release : String := ""
  IgnoreOtherVersions : Bool := false
  DisableExcludes : String := ""
deriving DecidableEq, Repr

/-- Go `type rpmState plan.State`. -/
abbrev rpmState := plan.State

/-- Go `rpmState.Name`. -/
def rpmState.Name (s : rpmState) : String :=
  match s.lookup "name" with
  | some name => name
  | none => ""

/-- Go `rpmState.Epoch`. -/
def rpmState.Epoch (_s : rpmState) : Int := 0

/-- Go `rpmState.Version`. -/
def rpmState.Version (s : rpmState) : String :=
  match s.lookup "version" with
  | some version => version
  | none => ""

/-- Go `rpmState.Release`. -/
def rpmState.Release (s : rpmState) : String :=
  match s.lookup "release" with
  | some release => release
  | none => ""

/-- The value `rpmState(s)` seen through `version.Interface`. -/
def rpmState.toInterface (s : rpmState) : version.Interface :=
  { Name := rpmState.Name s, Epoch := rpmState.Epoch s,
    Version := rpmState.Version s, Release := rpmState.Release s }

/-- Modelled from the spec: the helper `toState` of package `resource`, which
is not part of the sources at hand: the state of a resource is derived from
its fields, here following the `structs` tags of `RPM` (`name` always,
the other attributes only when they are not the zero value). -/
def toState (p : RPM) : plan.State :=
  [("name", p.Name)]
    ++ (if p.Version ≠ "" then [("version", p.Version)] else [])
    ++ (if p.Release ≠ "" then [("release", p.Release)] else [])
    ++ (if p.IgnoreOtherVersions then [("ignoreOtherVersions", "true")] else [])
    ++ (if p.DisableExcludes ≠ "" then [("disableExcludes", p.DisableExcludes)] else [])

/-- Go `(*RPM).State`. -/
def RPM.State (p : RPM) : plan.State := toState p

/-- Go `lowerRevisionThan`; `Compare` is the library function
`version.Compare`. -/
def lowerRevisionThan (Compare : version.Interface → version.Interface → Int)
    (state1 state2 : plan.State) : Bool :=
  decide (Compare (rpmState.toInterface state1) (rpmState.toInterface state2) < 0)

/-- Go `label`. -/
def label (name version release : String) : String :=
  if release ≠ "" then name ++ "-" ++ version ++ "-" ++ release
  else if version ≠ "" then name ++ "-" ++ version
  else name

/-- Go `(*RPM).label`. -/
def RPM.label (p : RPM) : String := Wksctl.label p.Name p.Version p.Release

/-- Go `(*RPM).stateDifferent`. -/
def RPM.stateDifferent (p : RPM) (current : plan.State) : Bool :=
  if current.IsEmpty then true
  else
    let desired := p.label
    let installed := Wksctl.label (current.String "name") (current.String "version")
      (current.String "release")
    !strings.HasPrefix installed desired

/-- The command string that `(*RPM).Apply` builds once `stateDifferent` holds:
the three-way choice and the `--disableexcludes` suffix. -/
def RPM.applyCmd (Compare : version.Interface → version.Interface → Int)
    (p : RPM) (diff : plan.Diff) : String :=
  let cmd :=
    if diff.CurrentState.IsEmpty then "yum -y install " ++ p.label
    else if lowerRevisionThan Compare diff.CurrentState p.State then
      "yum -y upgrade-to " ++ p.label
    else if lowerRevisionThan Compare p.State diff.CurrentState then
      "yum -y remove " ++ p.Name ++ " && yum -y install " ++ p.label
    else ""
  if p.DisableExcludes ≠ "" then cmd ++ " --disableexcludes " ++ p.DisableExcludes
  else cmd

/-- Go `(*RPM).Apply`: the result `(changed, err)` and the world after it. -/
def RPM.Apply {σ : Type} (Compare : version.Interface → version.Interface → Int)
    (p : RPM) (r : plan.Runner σ) (diff : plan.Diff) (w : plan.World σ) :
    (Bool × error) × plan.World σ :=
  if !p.stateDifferent diff.CurrentState then ((false, none), w)
  else
    let res := plan.RunCommand r (p.applyCmd Compare diff) w
    let err := res.1.2
    ((err.isNone, err), res.2)

/-- Modelled from the spec: the helper `line` of package `resource`, which is
not part of the sources at hand: the one result line of a command output,
that is the output up to its first line break. -/
def line (s : String) : String :=
  String.mk (s.data.takeWhile (fun c => !(c == '\n' || c == '\r')))

/-- The query command of `(*RPM).QueryState`. -/
def RPM.queryCmd (p : RPM) : String :=
  "rpm -q --queryformat '%\x7bNAME\x7d %\x7bVERSION\x7d %\x7bRELEASE\x7d\\n' " ++ p.label

/-- Go `(*RPM).QueryState`: the result `(state, err)`, or a panic when a field
of the result line is missing, and the world after it. `line` is the helper
`line` of the package. -/
def RPM.QueryState {σ : Type} (line : String → String) (p : RPM) (r : plan.Runner σ)
    (w : plan.World σ) : Outcome (plan.State × error) × plan.World σ :=
  let res := plan.RunCommand r p.queryCmd w
  let output := res.1.1
  let err := res.1.2
  if err.isSome && strings.Contains output "is not installed" then
    (.ret (plan.EmptyState, none), res.2)
  else
    match err with
    | some e =>
      (.ret (plan.EmptyState,
        some ("Query rpm " ++ p.label ++ " failed: " ++ e ++ " -- " ++ output)), res.2)
    | none =>
      let l := line output
      let parts := strings.SplitSpace l
      match parts[0]?, parts[1]?, parts[2]? with
      | some name, some version, some release =>
        let queriedPackage : RPM := { Name := name, Version := version, Release := release }
        (.ret (queriedPackage.State, none), res.2)
      | _, _, _ => (.panic "index out of range", res.2)

/-- Go `(*RPM).WouldChangeState`. -/
def RPM.WouldChangeState {σ : Type} (line : String → String) (p : RPM) (r : plan.Runner σ)
    (w : plan.World σ) : Outcome (Bool × error) × plan.World σ :=
  match p.QueryState line r w with
  | (.panic msg, w1) => (.panic msg, w1)
  | (.ret (current, err), w1) =>
    if err.isSome then (.ret (false, err), w1)
    else (.ret (p.stateDifferent current, none), w1)

/-- Go `undoAction`. -/
def undoAction {σ : Type} (r : plan.Runner σ) (pkgDescription : String) (w : plan.World σ) :
    error × plan.World σ :=
  let res := plan.RunCommand r ("yum -y remove " ++ pkgDescription ++ " || true") w
  (res.1.2, res.2)

/-- Go `(*RPM).Undo`. -/
def RPM.Undo {σ : Type} (p : RPM) (r : plan.Runner σ) (_current : plan.State)
    (w : plan.World σ) : error × plan.World σ :=
  let pkgDescription := if p.IgnoreOtherVersions then p.label else p.Name
  undoAction r pkgDescription w

/-- A runner that answers every command with the same output and error. -/
def constRunner (out : String) (e : error) : plan.Runner Unit :=
  fun _ u => ((out, e), u)

/-- A host that answers the n-th command with the n-th entry of a script
(output and error), and with empty output and no error afterwards. -/
def scriptRunner : plan.Runner (List (String × error)) :=
  fun _ script =>
    match script with
    | [] => (("", none), [])
    | a :: rest => (a, rest)

/-- The state reported for an installed package. -/
def installed (name version release : String) : plan.State :=
  [("name", name), ("version", version), ("release", release)]

/-! ## Command `wksctl apply` (`cmd/wksctl/apply/apply.go`) -/

namespace errors

/-- Modelled from the spec: `errors.Wrap` and `errors.Wrapf` of
github.com/pkg/errors, which is not part of the sources at hand: for a non-nil
cause the result is a non-nil error that carries the message and the text of
the cause. -/
def Wrap (err : String) (message : String) : error :=
  some (message ++ ": " ++ err)

end errors

namespace apply

/-- Go `Params`: the flags of the apply command (the field `namespace` is
`namespace_` here, the word being reserved). -/
structure Params where
  clusterManifestPath : String
  machinesManifestPath : String
  controllerImage : String
  gitURL : String
  gitBranch : String
  gitPath : String
  gitDeployKeyPath : String
  sealedSecretKeyPath : String
  sealedSecretCertPath : String
  configDirectory : String
  namespace_ : String
  useManifestNamespace : Bool
  verbose : Bool
deriving DecidableEq, Repr

/-- Go `Applier`. -/
structure Applier where
  Params : Params
deriving DecidableEq, Repr

/-- Modelled from the spec: what `initiateCluster` reads of the value `sp` that
`specs.NewFromPaths` returns (package `pkg/specs`, not part of the sources at
hand): the addresses of the seed node, the SSH key path, the cloud provider and
the fields of the cluster spec. -/
structure Specs where
  MasterPublicAddress : String
  MasterPrivateAddress : String
  SSHKeyPath : String
  CloudProvider : String
  ImageRepository : String
  ExternalLoadBalancer : String
  AdditionalSANs : List String
deriving DecidableEq, Repr

/-- Modelled from the spec: `config.KubeletConfig`, with the fields that
`initiateCluster` sets. -/
structure KubeletConfig where
  NodeIP : String
  CloudProvider : String
deriving DecidableEq, Repr

/-- Modelled from the spec: `wksos.GitParams`, with the fields that
`initiateCluster` sets. -/
structure GitParams where
  GitURL : String
  GitBranch : String
  GitPath : String
  GitDeployKeyPath : String
deriving DecidableEq, Repr

/-- Modelled from the spec: `wksos.SeedNodeParams`, with the fields that
`initiateCluster` sets. -/
structure SeedNodeParams where
  PublicIP : String
  PrivateIP : String
  ClusterManifestPath : String
  MachinesManifestPath : String
  SSHKeyPath : String
  BootstrapToken : String
  KubeletConfig : KubeletConfig
  ControllerImageOverride : String
  GitData : GitParams
  SealedSecretKeyPath : String
  SealedSecretCertPath : String
  ConfigDirectory : String
  ImageRepository : String
  ExternalLoadBalancer : String
  AdditionalSANs : List String
  Namespace : String
deriving DecidableEq, Repr

/-- Modelled from the spec: the external collaborators of the seed-node
orchestration (packages `specs`, `wksos`, `kubeadm`, `addons` and
`path/filepath`, not part of the sources at hand), each given by what its call
returns. The SSH client and the installer are objects without content here: of
`GetSSHClient` and `Identify` only the error is kept. -/
structure Collaborators where
  NewFromPaths : String → String → Specs
  GetSSHClient : Specs → Bool → error
  Identify : error
  GenerateBootstrapToken : String × error
  UpdateImage : String → String → String × error
  SetupSeedNode : SeedNodeParams → error
  Dir : String → String

/-- The calls that `initiateCluster` makes, in the order in which they are
made; `Close` and `closer` are the deferred calls. -/
inductive Event where
  | GetSSHClient
  | Identify
  | GenerateBootstrapToken
  | UpdateImage
  | SetupSeedNode (params : SeedNodeParams)
  | Close
  | closer
deriving DecidableEq, Repr

/-- Go `(*Applier).initiateCluster`: the error returned and the calls made. -/
def Applier.initiateCluster (c : Collaborators) (a : Applier)
    (clusterManifestPath machinesManifestPath : String) : error × List Event :=
  let sp := c.NewFromPaths clusterManifestPath machinesManifestPath
  match c.GetSSHClient sp a.Params.verbose with
  | some err =>
    (errors.Wrap err "failed to create SSH client", [.GetSSHClient, .closer])
  | none =>
    match c.Identify with
    | some err =>
      (errors.Wrap err ("failed to identify operating system for seed node ("
          ++ sp.MasterPublicAddress ++ ")"),
        [.GetSSHClient, .Identify, .Close, .closer])
    | none =>
      match c.GenerateBootstrapToken with
      | (_, some err) =>
        (errors.Wrap err "failed to generate bootstrap token",
          [.GetSSHClient, .Identify, .GenerateBootstrapToken, .Close, .closer])
      | (token, none) =>
        let configDir :=
          if a.Params.configDirectory = "." ∧ a.Params.gitURL ≠ "" then c.Dir clusterManifestPath
          else a.Params.configDirectory
        let ns := if !a.Params.useManifestNamespace then a.Params.namespace_ else ""
        -- the error of `UpdateImage` is wrapped and the wrapped error is dropped
        let controllerImage := (c.UpdateImage a.Params.controllerImage sp.ImageRepository).1
        let params : SeedNodeParams :=
          { PublicIP := sp.MasterPublicAddress
            PrivateIP := sp.MasterPrivateAddress
            ClusterManifestPath := clusterManifestPath
            MachinesManifestPath := machinesManifestPath
            SSHKeyPath := sp.SSHKeyPath
            BootstrapToken := token
            KubeletConfig := { NodeIP := sp.MasterPrivateAddress, CloudProvider := sp.CloudProvider }
            ControllerImageOverride := controllerImage
            GitData :=
              { GitURL := a.Params.gitURL, GitBranch := a.Params.gitBranch
                GitPath := a.Params.gitPath, GitDeployKeyPath := a.Params.gitDeployKeyPath }
            SealedSecretKeyPath := a.Params.sealedSecretKeyPath
            SealedSecretCertPath := a.Params.sealedSecretCertPath
            ConfigDirectory := configDir
            ImageRepository := sp.ImageRepository
            ExternalLoadBalancer := sp.ExternalLoadBalancer
            AdditionalSANs := sp.AdditionalSANs
            Namespace := ns }
        match c.SetupSeedNode params with
        | some err =>
          (errors.Wrap err ("failed to set up seed node (" ++ sp.MasterPublicAddress ++ ")"),
            [.GetSSHClient, .Identify, .GenerateBootstrapToken, .UpdateImage,
              .SetupSeedNode params, .Close, .closer])
        | none =>
          (none,
            [.GetSSHClient, .Identify, .GenerateBootstrapToken, .UpdateImage,
              .SetupSeedNode params, .Close, .closer])

/-- Whether `installer.SetupSeedNode` is among the calls made. -/
def invokesSetupSeedNode (events : List Event) : Bool :=
  events.any (fun e => match e with
    | .SetupSeedNode _ => true
    | _ => false)

/-- The flags of a plain `wksctl apply` run. -/
def exampleParams : Params :=
  { clusterManifestPath := "cluster.yaml", machinesManifestPath := "machines.yaml",
    controllerImage := "quay.io/wksctl/controller:1.0", gitURL := "", gitBranch := "master",
    gitPath := ".", gitDeployKeyPath := "", sealedSecretKeyPath := "",
    sealedSecretCertPath := "", configDirectory := ".", namespace_ := "weavek8sops",
    useManifestNamespace := false, verbose := false }

/-- Collaborators that all succeed, apart from `addons.UpdateImage`, which
returns the given image and error. -/
def exampleCollaborators (image : String) (imageErr : error) : Collaborators :=
  { NewFromPaths := fun _ _ =>
      { MasterPublicAddress := "172.17.0.2", MasterPrivateAddress := "10.0.0.2",
        SSHKeyPath := "id_rsa", CloudProvider := "", ImageRepository := "registry:5000",
        ExternalLoadBalancer := "", AdditionalSANs := [] }
    GetSSHClient := fun _ _ => none
    Identify := none
    GenerateBootstrapToken := ("abcdef.0123456789abcdef", none)
    UpdateImage := fun _ _ => (image, imageErr)
    SetupSeedNode := fun _ => none
    Dir := fun s => s }

end apply

/-! ## Lemmas on the string functions -/

theorem strings.HasPrefix_iff (s pre : String) :
    strings.HasPrefix s pre = true ↔ ∃ t : String, s = pre ++ t := by
  unfold strings.HasPrefix
  rw [List.isPrefixOf_iff_prefix]
  constructor
  · rintro ⟨t, ht⟩
    exact ⟨String.mk t, String.ext (by simp [String.data_append, ht])⟩
  · rintro ⟨t, rfl⟩
    exact ⟨t.data, by simp [String.data_append]⟩

theorem strings.containsChars_iff (s sub : List Char) :
    strings.containsChars s sub = true ↔ sub <:+: s := by
  induction s with
  | nil =>
    cases sub <;> simp [strings.containsChars]
  | cons c cs ih =>
    simp only [strings.containsChars, Bool.or_eq_true, List.isPrefixOf_iff_prefix, ih,
      List.infix_cons_iff]

theorem strings.Contains_iff (s sub : String) :
    strings.Contains s sub = true ↔ ∃ a b : String, s = a ++ sub ++ b := by
  unfold strings.Contains
  rw [strings.containsChars_iff]
  constructor
  · rintro ⟨a, b, h⟩
    exact ⟨String.mk a, String.mk b, String.ext (by simp [String.data_append, h])⟩
  · rintro ⟨a, b, rfl⟩
    exact ⟨a.data, b.data, by simp [String.data_append]⟩

/-! ## Lemmas on states -/

theorem plan.State.IsEmpty_iff (s : plan.State) : s.IsEmpty = true ↔ s = plan.EmptyState := by
  cases s <;> simp [plan.State.IsEmpty, plan.EmptyState]

theorem rpmState.toInterface_State (p : RPM) :
    rpmState.toInterface p.State =
      { Name := p.Name, Epoch := 0, Version := p.Version, Release := p.Release } := by
  have hv : rpmState.Version p.State = p.Version := by
    unfold rpmState.Version RPM.State toState
    by_cases h1 : p.Version = "" <;> by_cases h2 : p.Release = "" <;>
      by_cases h3 : p.IgnoreOtherVersions = true <;> by_cases h4 : p.DisableExcludes = "" <;>
      simp [h1, h2, h3, h4, List.lookup]
  have hr : rpmState.Release p.State = p.Release := by
    unfold rpmState.Release RPM.State toState
    by_cases h1 : p.Version = "" <;> by_cases h2 : p.Release = "" <;>
      by_cases h3 : p.IgnoreOtherVersions = true <;> by_cases h4 : p.DisableExcludes = "" <;>
      simp [h1, h2, h3, h4, List.lookup]
  have hn : rpmState.Name p.State = p.Name := by
    simp [rpmState.Name, RPM.State, toState, List.lookup]
  simp [rpmState.toInterface, hv, hr, hn, rpmState.Epoch]

theorem strings.splitChars_ne_nil (sep : Char) (l : List Char) :
    strings.splitChars sep l ≠ [] := by
  cases l with
  | nil => simp [strings.splitChars]
  | cons c cs =>
    simp only [strings.splitChars]
    split
    · simp
    · split <;> simp

/-- The parts of a split, joined again with the separator, are the input. -/
theorem strings.splitChars_intercalate (sep : Char) (l : List Char) :
    [sep].intercalate (strings.splitChars sep l) = l := by
  induction l with
  | nil => simp [strings.splitChars, List.intercalate]
  | cons c cs ih =>
    simp only [strings.splitChars]
    split
    · rename_i h
      cases hs : strings.splitChars sep cs with
      | nil => exact absurd hs (strings.splitChars_ne_nil sep cs)
      | cons w ws =>
        rw [hs] at ih
        simp only [List.intercalate, List.intersperse, List.flatten_cons] at ih ⊢
        simp [ih, h]
    · cases hs : strings.splitChars sep cs with
      | nil => exact absurd hs (strings.splitChars_ne_nil sep cs)
      | cons w ws =>
        rw [hs] at ih
        cases ws with
        | nil =>
          simp only [List.intercalate, List.intersperse, List.flatten_cons] at ih ⊢
          simpa using ih
        | cons v vs =>
          simp only [List.intercalate, List.intersperse, List.flatten_cons] at ih ⊢
          simpa using ih

/-- No part of a split contains the separator. -/
theorem strings.splitChars_no_sep (sep : Char) (l : List Char) :
    ∀ part ∈ strings.splitChars sep l, sep ∉ part := by
  induction l with
  | nil => simp [strings.splitChars]
  | cons c cs ih =>
    simp only [strings.splitChars]
    split
    · intro part hp
      rcases List.mem_cons.1 hp with rfl | hp
      · simp
      · exact ih part hp
    · rename_i h
      cases hs : strings.splitChars sep cs with
      | nil => exact absurd hs (strings.splitChars_ne_nil sep cs)
      | cons w ws =>
        rw [hs] at ih
        intro part hp
        rcases List.mem_cons.1 hp with rfl | hp
        · intro hmem
          rcases List.mem_cons.1 hmem with e | hmem
          · exact h e.symm
          · exact ih w (List.mem_cons_self _ _) hmem
        · exact ih part (List.mem_cons_of_mem _ hp)

/-! ## The modelled version ordering is antisymmetric -/

theorem version.ltChars_asymm (a b : List Char) (h : version.ltChars a b = true) :
    version.ltChars b a = false := by
  induction a generalizing b with
  | nil => cases b <;> simp_all [version.ltChars]
  | cons x xs ih =>
    cases b with
    | nil => simp_all [version.ltChars]
    | cons y ys =>
      simp only [version.ltChars] at h ⊢
      by_cases h1 : x.toNat < y.toNat
      · have h2 : ¬ y.toNat < x.toNat := by omega
        simp [h1, h2]
      · by_cases h2 : y.toNat < x.toNat
        · simp [h1, h2] at h
        · simp only [h1, h2, if_false] at h ⊢
          exact ih ys h

theorem version.compareTail_swap (n : Bool) (x y : List Char) (t t1 : Int) (h : t1 = -t) :
    (if (n && decide (y.length > x.length)) = true then (1 : Int)
      else if (n && decide (x.length > y.length)) = true then -1
      else if version.ltChars y x = true then -1
      else if version.ltChars x y = true then 1
      else t1) =
    -(if (n && decide (x.length > y.length)) = true then (1 : Int)
      else if (n && decide (y.length > x.length)) = true then -1
      else if version.ltChars x y = true then -1
      else if version.ltChars y x = true then 1
      else t) := by
  subst h
  cases n
  · simp only [Bool.false_and, Bool.false_eq_true, if_false]
    by_cases h1 : version.ltChars x y = true
    · have h2 := version.ltChars_asymm x y h1
      simp [h1, h2]
    · by_cases h2 : version.ltChars y x = true
      · simp [h1, h2]
      · simp [h1, h2]
  · simp only [Bool.true_and, decide_eq_true_eq]
    by_cases g1 : y.length > x.length
    · have g2 : ¬ x.length > y.length := by omega
      simp [g1, g2]
    · by_cases g2 : x.length > y.length
      · simp [g1, g2]
      · simp only [g1, g2, if_false]
        by_cases h1 : version.ltChars x y = true
        · have h2 := version.ltChars_asymm x y h1
          simp [h1, h2]
        · by_cases h2 : version.ltChars y x = true
          · simp [h1, h2]
          · simp [h1, h2]

theorem version.compareSegments_swap (as bs : List (List Char)) :
    version.compareSegments bs as = -version.compareSegments as bs := by
  induction as generalizing bs with
  | nil =>
    cases bs with
    | nil => simp [version.compareSegments]
    | cons b bs => simp only [version.compareSegments]; split <;> simp
  | cons a as ih =>
    cases bs with
    | nil => simp only [version.compareSegments]; split <;> simp
    | cons b bs =>
      simp only [version.compareSegments]
      cases hta : version.startsWith '~' a <;> cases htb : version.startsWith '~' b <;>
        cases hna : version.startsNumeric a <;> cases hnb : version.startsNumeric b <;>
        simp only [Bool.or_false, Bool.or_true, Bool.and_true, Bool.and_false, Bool.not_true,
          Bool.not_false, Bool.false_and, Bool.true_and, Bool.false_eq_true, if_false, if_true,
          Int.neg_neg, Bool.or_self, Int.reduceNeg] <;>
        first
          | rfl
          | exact version.compareTail_swap false a b _ _ (ih bs)
          | exact version.compareTail_swap true _ _ _ _ (ih bs)

theorem version.CompareVersions_swap (a b : String) :
    version.CompareVersions b a = -version.CompareVersions a b := by
  unfold version.CompareVersions
  by_cases h : a = b
  · simp [h]
  · have h1 : ¬ b = a := fun e => h e.symm
    simp only [h, h1, if_false]
    exact version.compareSegments_swap _ _

theorem version.Compare_swap (a b : version.Interface) :
    version.Compare b a = -version.Compare a b := by
  unfold version.Compare
  rw [version.CompareVersions_swap a.Version b.Version,
    version.CompareVersions_swap a.Release b.Release]
  by_cases he : a.Epoch = b.Epoch
  · have he1 : b.Epoch = a.Epoch := he.symm
    by_cases hv : version.CompareVersions a.Version b.Version = 0
    · simp [he, hv]
    · simp [he, hv]
  · have he1 : ¬ b.Epoch = a.Epoch := fun e => he e.symm
    simp only [ne_eq, he, he1, not_false_eq_true, if_true]
    by_cases hlt : a.Epoch > b.Epoch
    · have hgt : ¬ b.Epoch > a.Epoch := by omega
      simp [hlt, hgt]
    · have hgt : b.Epoch > a.Epoch := by omega
      simp [hlt, hgt]

/-- The modelled comparison is antisymmetric: a package that sorts higher than
another has the other sort lower than itself. -/
theorem version.Compare_antisymm (a b : version.Interface) (h : 0 < version.Compare a b) :
    version.Compare b a < 0 := by
  rw [version.Compare_swap a b]
  omega

/-! ## Apply: when a command is sent -/

/-- The label of the package a non-empty current state reports. -/
theorem stateDifferent_eq (p : RPM) (current : plan.State) :
    p.stateDifferent current =
      (current.IsEmpty || !strings.HasPrefix
        (label (current.String "name") (current.String "version") (current.String "release"))
        p.label) := by
  unfold RPM.stateDifferent
  cases current.IsEmpty <;> simp

/-- Apply without a difference: nothing is sent and `(false, nil)` is returned. -/
theorem Apply_same {σ : Type} (Compare : version.Interface → version.Interface → Int)
    (p : RPM) (r : plan.Runner σ) (diff : plan.Diff) (w : plan.World σ)
    (h : p.stateDifferent diff.CurrentState = false) :
    p.Apply Compare r diff w = ((false, none), w) := by
  simp [RPM.Apply, h]

/-- Apply with a difference: exactly the command of `applyCmd` is sent. -/
theorem Apply_different {σ : Type} (Compare : version.Interface → version.Interface → Int)
    (p : RPM) (r : plan.Runner σ) (diff : plan.Diff) (w : plan.World σ)
    (h : p.stateDifferent diff.CurrentState = true) :
    p.Apply Compare r diff w =
      (((r (p.applyCmd Compare diff) w.host).1.2.isNone, (r (p.applyCmd Compare diff) w.host).1.2),
        { host := (r (p.applyCmd Compare diff) w.host).2,
          log := w.log ++ [p.applyCmd Compare diff] }) := by
  simp [RPM.Apply, h, plan.RunCommand]

/-- C1: Apply sends a command to the runner if and only if `stateDifferent` of the
current state is true. `stateDifferent` is false exactly for a non-empty current
state whose installed label has the desired label as a prefix; for such a diff
Apply returns `(false, nil)` and leaves the world (host and log of commands) as it
was; for every other diff the log grows by exactly one command, the host makes
exactly the step of that command, and the result is the error of that call. -/
theorem C1_apply_sends_iff_stateDifferent {σ : Type}
    (Compare : version.Interface → version.Interface → Int)
    (p : RPM) (r : plan.Runner σ) (diff : plan.Diff) (w : plan.World σ) :
    (p.stateDifferent diff.CurrentState = false ↔
      (diff.CurrentState.IsEmpty = false ∧
        strings.HasPrefix
          (label (diff.CurrentState.String "name") (diff.CurrentState.String "version")
            (diff.CurrentState.String "release")) p.label = true)) ∧
    (p.stateDifferent diff.CurrentState = false →
      p.Apply Compare r diff w = ((false, none), w)) ∧
    (p.stateDifferent diff.CurrentState = true →
      ∃ cmd : String,
        (p.Apply Compare r diff w).2.log = w.log ++ [cmd] ∧
        (p.Apply Compare r diff w).2.host = (r cmd w.host).2 ∧
        (p.Apply Compare r diff w).1 = ((r cmd w.host).1.2.isNone, (r cmd w.host).1.2)) := by
  refine ⟨?_, Apply_same Compare p r diff w, ?_⟩
  · rw [stateDifferent_eq]
    cases diff.CurrentState.IsEmpty <;> simp
  · intro h
    refine ⟨p.applyCmd Compare diff, ?_, ?_, ?_⟩ <;> rw [Apply_different Compare p r diff w h]

/-- Witness of C1: desired httpd-2.4-6; with httpd-2.4-6.el7 installed nothing is
sent, with nothing installed one command is sent. -/
theorem C1_apply_sends_iff_stateDifferent_witness :
    RPM.Apply version.Compare { Name := "httpd", Version := "2.4", Release := "6" }
        (constRunner "" none) ⟨installed "httpd" "2.4" "6.el7"⟩ ⟨(), []⟩
      = ((false, none), ⟨(), []⟩) ∧
    ∃ cmd : String,
      (RPM.Apply version.Compare { Name := "httpd", Version := "2.4", Release := "6" }
        (constRunner "" none) ⟨plan.EmptyState⟩ ⟨(), []⟩).2.log = [] ++ [cmd] ∧
      (RPM.Apply version.Compare { Name := "httpd", Version := "2.4", Release := "6" }
        (constRunner "" none) ⟨plan.EmptyState⟩ ⟨(), []⟩).2.host
          = (constRunner "" none cmd ()).2 ∧
      (RPM.Apply version.Compare { Name := "httpd", Version := "2.4", Release := "6" }
        (constRunner "" none) ⟨plan.EmptyState⟩ ⟨(), []⟩).1
          = ((constRunner "" none cmd ()).1.2.isNone, (constRunner "" none cmd ()).1.2) :=
  ⟨(C1_apply_sends_iff_stateDifferent version.Compare
      { Name := "httpd", Version := "2.4", Release := "6" } (constRunner "" none)
      ⟨installed "httpd" "2.4" "6.el7"⟩ ⟨(), []⟩).2.1 (by decide),
   (C1_apply_sends_iff_stateDifferent version.Compare
      { Name := "httpd", Version := "2.4", Release := "6" } (constRunner "" none)
      ⟨plan.EmptyState⟩ ⟨(), []⟩).2.2 (by decide)⟩

/-- C2: with empty DisableExcludes and an empty current state, Apply sends exactly
one command, `yum -y install` followed by the desired label: the log of commands
grows by that command and by nothing else (no upgrade, no remove). -/
theorem C2_apply_empty_state_installs {σ : Type}
    (Compare : version.Interface → version.Interface → Int)
    (p : RPM) (r : plan.Runner σ) (diff : plan.Diff) (w : plan.World σ)
    (hex : p.DisableExcludes = "") (hempty : diff.CurrentState = plan.EmptyState) :
    (p.Apply Compare r diff w).2.log = w.log ++ ["yum -y install " ++ p.label] := by
  have hd : p.stateDifferent diff.CurrentState = true := by
    simp [RPM.stateDifferent, hempty, plan.EmptyState, plan.State.IsEmpty]
  rw [Apply_different Compare p r diff w hd]
  simp [RPM.applyCmd, hempty, plan.EmptyState, plan.State.IsEmpty, hex]

/-- Witness of C2: desired httpd 2.4 6 with nothing installed issues
`yum -y install httpd-2.4-6`. -/
theorem C2_apply_empty_state_installs_witness :
    (RPM.Apply version.Compare { Name := "httpd", Version := "2.4", Release := "6" }
      (constRunner "" none) ⟨plan.EmptyState⟩ ⟨(), []⟩).2.log
      = ["yum -y install httpd-2.4-6"] :=
  C2_apply_empty_state_installs version.Compare
    { Name := "httpd", Version := "2.4", Release := "6" } (constRunner "" none)
    ⟨plan.EmptyState⟩ ⟨(), []⟩ rfl rfl

/-! ## Apply: the three-way choice of the command -/

/-- C3: with empty DisableExcludes, for a non-empty current state that
`stateDifferent` reports as different and that sorts lower than the desired package
under `version.Compare` (epoch 0 for the state, then version, then release), Apply
sends exactly one command, `yum -y upgrade-to` followed by the desired label, and so
no install and no remove command. -/
theorem C3_apply_lower_upgrades {σ : Type}
    (Compare : version.Interface → version.Interface → Int)
    (p : RPM) (r : plan.Runner σ) (diff : plan.Diff) (w : plan.World σ)
    (hex : p.DisableExcludes = "") (hne : diff.CurrentState.IsEmpty = false)
    (hd : p.stateDifferent diff.CurrentState = true)
    (hlow : Compare (rpmState.toInterface diff.CurrentState)
      { Name := p.Name, Epoch := 0, Version := p.Version, Release := p.Release } < 0) :
    (p.Apply Compare r diff w).2.log = w.log ++ ["yum -y upgrade-to " ++ p.label] := by
  rw [Apply_different Compare p r diff w hd]
  simp [RPM.applyCmd, hne, hex, lowerRevisionThan, rpmState.toInterface_State, hlow]

/-- Witness of C3: current (foo, 1.0, 1) with desired (foo, 2.0, 1), and current
(httpd, 2.2, 1) with desired (httpd, 2.4, 6), under the rpm version ordering. -/
theorem C3_apply_lower_upgrades_witness :
    (RPM.Apply version.Compare { Name := "foo", Version := "2.0", Release := "1" }
      (constRunner "" none) ⟨installed "foo" "1.0" "1"⟩ ⟨(), []⟩).2.log
      = [] ++ ["yum -y upgrade-to " ++ RPM.label { Name := "foo", Version := "2.0", Release := "1" }] ∧
    (RPM.Apply version.Compare { Name := "httpd", Version := "2.4", Release := "6" }
      (constRunner "" none) ⟨installed "httpd" "2.2" "1"⟩ ⟨(), []⟩).2.log
      = [] ++ ["yum -y upgrade-to " ++ RPM.label { Name := "httpd", Version := "2.4", Release := "6" }] ∧
    "yum -y upgrade-to " ++ RPM.label { Name := "httpd", Version := "2.4", Release := "6" }
      = "yum -y upgrade-to httpd-2.4-6" :=
  ⟨C3_apply_lower_upgrades version.Compare { Name := "foo", Version := "2.0", Release := "1" }
      (constRunner "" none) ⟨installed "foo" "1.0" "1"⟩ ⟨(), []⟩ rfl rfl (by decide) (by decide),
   C3_apply_lower_upgrades version.Compare { Name := "httpd", Version := "2.4", Release := "6" }
      (constRunner "" none) ⟨installed "httpd" "2.2" "1"⟩ ⟨(), []⟩ rfl rfl (by decide) (by decide),
   by decide⟩

/-- C4: with empty DisableExcludes, for a non-empty current state that
`stateDifferent` reports as different and that sorts higher than the desired package
under an antisymmetric `version.Compare`, Apply sends exactly one command, the
remove of the bare name followed by the install of the desired label. -/
theorem C4_apply_higher_removes_then_installs {σ : Type}
    (Compare : version.Interface → version.Interface → Int)
    (hanti : ∀ a b : version.Interface, 0 < Compare a b → Compare b a < 0)
    (p : RPM) (r : plan.Runner σ) (diff : plan.Diff) (w : plan.World σ)
    (hex : p.DisableExcludes = "") (hne : diff.CurrentState.IsEmpty = false)
    (hd : p.stateDifferent diff.CurrentState = true)
    (hhigh : 0 < Compare (rpmState.toInterface diff.CurrentState)
      { Name := p.Name, Epoch := 0, Version := p.Version, Release := p.Release }) :
    (p.Apply Compare r diff w).2.log
      = w.log ++ ["yum -y remove " ++ p.Name ++ " && yum -y install " ++ p.label] := by
  have hlow := hanti _ _ hhigh
  have hnot : ¬ Compare (rpmState.toInterface diff.CurrentState)
      { Name := p.Name, Epoch := 0, Version := p.Version, Release := p.Release } < 0 := by
    omega
  rw [Apply_different Compare p r diff w hd]
  simp [RPM.applyCmd, hne, hex, lowerRevisionThan, rpmState.toInterface_State, hlow, hnot]

/-- Witness of C4: current (foo, 1.0, 1) with desired (foo, 0.5, 1) under the rpm
version ordering. -/
theorem C4_apply_higher_removes_then_installs_witness :
    (RPM.Apply version.Compare { Name := "foo", Version := "0.5", Release := "1" }
      (constRunner "" none) ⟨installed "foo" "1.0" "1"⟩ ⟨(), []⟩).2.log
      = [] ++ ["yum -y remove " ++ "foo" ++ " && yum -y install "
          ++ RPM.label { Name := "foo", Version := "0.5", Release := "1" }] ∧
    "yum -y remove " ++ "foo" ++ " && yum -y install "
          ++ RPM.label { Name := "foo", Version := "0.5", Release := "1" }
      = "yum -y remove foo && yum -y install foo-0.5-1" :=
  ⟨C4_apply_higher_removes_then_installs version.Compare version.Compare_antisymm
      { Name := "foo", Version := "0.5", Release := "1" }
      (constRunner "" none) ⟨installed "foo" "1.0" "1"⟩ ⟨(), []⟩ rfl rfl (by decide) (by decide),
   by decide⟩

/-- Apply with a difference between states of equal revision: neither branch of the
three-way choice is taken and the command sent is the empty string. -/
theorem Apply_equal_revision {σ : Type}
    (Compare : version.Interface → version.Interface → Int)
    (p : RPM) (r : plan.Runner σ) (diff : plan.Diff) (w : plan.World σ)
    (hex : p.DisableExcludes = "") (hne : diff.CurrentState.IsEmpty = false)
    (hd : p.stateDifferent diff.CurrentState = true)
    (h1 : lowerRevisionThan Compare diff.CurrentState p.State = false)
    (h2 : lowerRevisionThan Compare p.State diff.CurrentState = false) :
    (p.Apply Compare r diff w).2.log = w.log ++ [""] := by
  rw [Apply_different Compare p r diff w hd]
  simp [RPM.applyCmd, hne, hex, h1, h2]

/-- C5, the code at the failing input: desired (foo, 1.0, 1) with (foo, 1.00, 1)
installed, and with (bar, 1.0, 1) installed. In both cases version and release
compare equal under the rpm version ordering, `stateDifferent` is true, and Apply
sends one command to the runner, the empty string. -/
theorem C5_apply_equal_versions_sends_empty_command :
    (version.Compare (rpmState.toInterface (installed "foo" "1.00" "1"))
        (rpmState.toInterface (RPM.State { Name := "foo", Version := "1.0", Release := "1" })) = 0 ∧
      RPM.stateDifferent { Name := "foo", Version := "1.0", Release := "1" }
        (installed "foo" "1.00" "1") = true ∧
      RPM.Apply version.Compare { Name := "foo", Version := "1.0", Release := "1" }
        (constRunner "" none) ⟨installed "foo" "1.00" "1"⟩ ⟨(), []⟩
        = ((true, none), ⟨(), [""]⟩)) ∧
    (version.Compare (rpmState.toInterface (installed "bar" "1.0" "1"))
        (rpmState.toInterface (RPM.State { Name := "foo", Version := "1.0", Release := "1" })) = 0 ∧
      RPM.stateDifferent { Name := "foo", Version := "1.0", Release := "1" }
        (installed "bar" "1.0" "1") = true ∧
      RPM.Apply version.Compare { Name := "foo", Version := "1.0", Release := "1" }
        (constRunner "" none) ⟨installed "bar" "1.0" "1"⟩ ⟨(), []⟩
        = ((true, none), ⟨(), [""]⟩)) := by
  decide

/-! ## QueryState -/

/-- C6: when the runner's query returns a non-nil error together with an output
that contains `is not installed`, QueryState returns `(EmptyState, nil)`. -/
theorem C6_query_not_installed_is_empty_state {σ : Type} (line : String → String)
    (p : RPM) (r : plan.Runner σ) (w : plan.World σ) (out e : String)
    (hrun : (r p.queryCmd w.host).1 = (out, some e))
    (hout : strings.Contains out "is not installed" = true) :
    (p.QueryState line r w).1 = Outcome.ret (plan.EmptyState, none) := by
  simp [RPM.QueryState, plan.RunCommand, hrun, hout]

/-- Witness of C6: rpm exits with an error and says that the package is not
installed. -/
theorem C6_query_not_installed_is_empty_state_witness :
    (RPM.QueryState line { Name := "foo" }
      (constRunner "package foo is not installed" (some "exit status 1")) ⟨(), []⟩).1
      = Outcome.ret (plan.EmptyState, none) :=
  C6_query_not_installed_is_empty_state line { Name := "foo" }
    (constRunner "package foo is not installed" (some "exit status 1")) ⟨(), []⟩
    "package foo is not installed" "exit status 1" rfl (by decide)

/-- C7: when the runner's query returns a non-nil error and an output that does not
contain `is not installed`, QueryState returns EmptyState together with a non-nil
error, whose message is `Query rpm <label> failed: <error> -- <output>` and so
contains the label, the runner's error text and the raw output. -/
theorem C7_query_failure_is_surfaced {σ : Type} (line : String → String)
    (p : RPM) (r : plan.Runner σ) (w : plan.World σ) (out e : String)
    (hrun : (r p.queryCmd w.host).1 = (out, some e))
    (hout : strings.Contains out "is not installed" = false) :
    ∃ msg : String,
      (p.QueryState line r w).1 = Outcome.ret (plan.EmptyState, some msg) ∧
      msg = "Query rpm " ++ p.label ++ " failed: " ++ e ++ " -- " ++ out ∧
      strings.Contains msg p.label = true ∧
      strings.Contains msg e = true ∧
      strings.Contains msg out = true := by
  refine ⟨"Query rpm " ++ p.label ++ " failed: " ++ e ++ " -- " ++ out, ?_, rfl, ?_, ?_, ?_⟩
  · simp [RPM.QueryState, plan.RunCommand, hrun, hout]
  · rw [strings.Contains_iff]
    exact ⟨"Query rpm ", " failed: " ++ e ++ " -- " ++ out, by simp [String.append_assoc]⟩
  · rw [strings.Contains_iff]
    exact ⟨"Query rpm " ++ p.label ++ " failed: ", " -- " ++ out, by simp [String.append_assoc]⟩
  · rw [strings.Contains_iff]
    exact ⟨"Query rpm " ++ p.label ++ " failed: " ++ e ++ " -- ", "", by simp [String.append_assoc]⟩

/-- Witness of C7: rpm fails for another reason. -/
theorem C7_query_failure_is_surfaced_witness :
    ∃ msg : String,
      (RPM.QueryState line { Name := "foo" }
        (constRunner "error: rpmdb open failed" (some "exit status 1")) ⟨(), []⟩).1
        = Outcome.ret (plan.EmptyState, some msg) ∧
      msg = "Query rpm " ++ RPM.label { Name := "foo" } ++ " failed: " ++ "exit status 1"
        ++ " -- " ++ "error: rpmdb open failed" ∧
      strings.Contains msg (RPM.label { Name := "foo" }) = true ∧
      strings.Contains msg "exit status 1" = true ∧
      strings.Contains msg "error: rpmdb open failed" = true :=
  C7_query_failure_is_surfaced line { Name := "foo" }
    (constRunner "error: rpmdb open failed" (some "exit status 1")) ⟨(), []⟩
    "error: rpmdb open failed" "exit status 1" rfl (by decide)

/-- After a successful run of the query command QueryState never returns an error:
it returns a state with a nil error, or it panics on a missing field. -/
theorem QueryState_success_never_error {σ : Type} (line : String → String)
    (p : RPM) (r : plan.Runner σ) (w : plan.World σ) (out : String)
    (hrun : (r p.queryCmd w.host).1 = (out, none)) :
    (∃ s : plan.State, (p.QueryState line r w).1 = Outcome.ret (s, none)) ∨
    (p.QueryState line r w).1 = Outcome.panic "index out of range" := by
  simp only [RPM.QueryState, plan.RunCommand, hrun, Option.isSome_none, Bool.false_and,
    Bool.false_eq_true, if_false]
  split
  · exact Or.inl ⟨_, rfl⟩
  · exact Or.inr rfl

/-- C8, counterexample: the query succeeds and prints two matching lines, a line
with a fourth field, or a line with two fields only. For the first two QueryState
returns the state of the first three fields of the first line with a nil error; for
the third it fails by indexing the missing field. In no case is an error returned. -/
theorem C8_malformed_output_counterexample :
    (RPM.QueryState line { Name := "foo" }
        (constRunner "foo 1.0 1\nfoo 2.0 1\n" none) ⟨(), []⟩).1
      = Outcome.ret (installed "foo" "1.0" "1", none) ∧
    (RPM.QueryState line { Name := "foo" }
        (constRunner "foo 1.0 1 extra\n" none) ⟨(), []⟩).1
      = Outcome.ret (installed "foo" "1.0" "1", none) ∧
    (RPM.QueryState line { Name := "foo" }
        (constRunner "foo 1.0\n" none) ⟨(), []⟩).1
      = Outcome.panic "index out of range" := by
  decide

/-- C8, amended: when the query succeeds and the result line of its output splits
at spaces into at least three fields, QueryState returns, with a nil error, the
state of the package that the first three fields name; further fields are not
looked at. -/
theorem C8_query_parses_first_three_fields {σ : Type} (line : String → String)
    (p : RPM) (r : plan.Runner σ) (w : plan.World σ) (out : String)
    (name version release : String) (rest : List String)
    (hrun : (r p.queryCmd w.host).1 = (out, none))
    (hparts : strings.SplitSpace (line out) = name :: version :: release :: rest) :
    (p.QueryState line r w).1
      = Outcome.ret (RPM.State { Name := name, Version := version, Release := release }, none) := by
  simp [RPM.QueryState, plan.RunCommand, hrun, hparts]

/-- Witness of C8, amended: the output `foo 1.0 1`. -/
theorem C8_query_parses_first_three_fields_witness :
    (RPM.QueryState line { Name := "foo" } (constRunner "foo 1.0 1\n" none) ⟨(), []⟩).1
      = Outcome.ret (RPM.State { Name := "foo", Version := "1.0", Release := "1" }, none) :=
  C8_query_parses_first_three_fields line { Name := "foo" } (constRunner "foo 1.0 1\n" none)
    ⟨(), []⟩ "foo 1.0 1\n" "foo" "1.0" "1" [] rfl (by decide)

/-! ## Release without version -/

/-- C9, counterexample: the RPM value with name `name`, no version and release
`release` is not rejected: its label is `name--release`, and QueryState, Apply and
Undo send commands that contain this label. -/
theorem C9_release_without_version_counterexample :
    RPM.label { Name := "name", Release := "release" } = "name--release" ∧
    (RPM.QueryState line { Name := "name", Release := "release" }
        (constRunner "package name--release is not installed" (some "exit status 1"))
        ⟨(), []⟩).2.log
      = ["rpm -q --queryformat '%\x7bNAME\x7d %\x7bVERSION\x7d %\x7bRELEASE\x7d\\n' name--release"] ∧
    (RPM.Apply version.Compare { Name := "name", Release := "release" }
        (constRunner "" none) ⟨plan.EmptyState⟩ ⟨(), []⟩).2.log
      = ["yum -y install name--release"] ∧
    (RPM.Undo { Name := "name", Release := "release", IgnoreOtherVersions := true }
        (constRunner "" none) plan.EmptyState ⟨(), []⟩).2.log
      = ["yum -y remove name--release || true"] := by
  decide

theorem label_release_without_version (name release : String) (hr : release ≠ "") :
    label name "" release = name ++ "--" ++ release := by
  simp only [label, hr, ne_eq, not_false_eq_true, if_true]
  apply String.ext
  simp [String.data_append]

/-- C9, amended: a release without a version is not checked by the resource. For
every RPM with an empty Version and a non-empty Release the label is the name, two
hyphens and the release; QueryState sends the query for this label, Apply on an
empty current state sends the install of this label, and Undo sends the remove of
this label when IgnoreOtherVersions is set, of the bare name otherwise. -/
theorem C9_release_without_version_not_checked {σ : Type}
    (Compare : version.Interface → version.Interface → Int) (line : String → String)
    (p : RPM) (r : plan.Runner σ) (current : plan.State) (w : plan.World σ)
    (hv : p.Version = "") (hr : p.Release ≠ "") :
    p.label = p.Name ++ "--" ++ p.Release ∧
    (p.QueryState line r w).2.log
      = w.log ++ ["rpm -q --queryformat '%\x7bNAME\x7d %\x7bVERSION\x7d %\x7bRELEASE\x7d\\n' "
          ++ (p.Name ++ "--" ++ p.Release)] ∧
    (p.Apply Compare r ⟨plan.EmptyState⟩ w).2.log
      = w.log ++ [if p.DisableExcludes ≠ ""
          then "yum -y install " ++ (p.Name ++ "--" ++ p.Release) ++ " --disableexcludes "
            ++ p.DisableExcludes
          else "yum -y install " ++ (p.Name ++ "--" ++ p.Release)] ∧
    (p.Undo r current w).2.log
      = w.log ++ [if p.IgnoreOtherVersions
          then "yum -y remove " ++ (p.Name ++ "--" ++ p.Release) ++ " || true"
          else "yum -y remove " ++ p.Name ++ " || true"] := by
  have hl : p.label = p.Name ++ "--" ++ p.Release := by
    unfold RPM.label
    rw [hv]
    exact label_release_without_version p.Name p.Release hr
  refine ⟨hl, ?_, ?_, ?_⟩
  · rw [← hl]
    simp only [RPM.QueryState, plan.RunCommand, RPM.queryCmd]
    split
    · rfl
    · split
      · rfl
      · split <;> rfl
  · have hd : p.stateDifferent (plan.Diff.mk plan.EmptyState).CurrentState = true := by
      simp [RPM.stateDifferent, plan.EmptyState, plan.State.IsEmpty]
    rw [Apply_different Compare p r _ w hd, ← hl]
    by_cases hex : p.DisableExcludes = "" <;>
      simp [RPM.applyCmd, plan.EmptyState, plan.State.IsEmpty, hex]
  · rw [← hl]
    cases hi : p.IgnoreOtherVersions <;> simp [RPM.Undo, undoAction, plan.RunCommand, hi]

/-- Witness of C9, amended: the RPM with name `name`, no version and release
`release`. -/
theorem C9_release_without_version_not_checked_witness :
    RPM.label { Name := "name", Release := "release" } = "name" ++ "--" ++ "release" :=
  (C9_release_without_version_not_checked version.Compare line
    { Name := "name", Release := "release" } (constRunner "" none) plan.EmptyState ⟨(), []⟩
    rfl (by decide)).1

/-! ## stateDifferent -/

/-- C10: `stateDifferent` is the prefix comparison of labels. It is true for the
empty state; for a non-empty current state it is false exactly when the installed
label equals the desired label or starts with it; and the label of (n, v, r) is
`n-v-r` if r is not empty, else `n-v` if v is not empty, else `n`. -/
theorem C10_stateDifferent_is_prefix_comparison (p : RPM) :
    p.stateDifferent plan.EmptyState = true ∧
    (∀ current : plan.State, current.IsEmpty = true → p.stateDifferent current = true) ∧
    (∀ current : plan.State, current.IsEmpty = false →
      (p.stateDifferent current = false ↔
        (label (current.String "name") (current.String "version") (current.String "release")
            = p.label ∨
          ∃ t : String,
            label (current.String "name") (current.String "version") (current.String "release")
              = p.label ++ t))) ∧
    (∀ n v r : String, r ≠ "" → label n v r = n ++ "-" ++ v ++ "-" ++ r) ∧
    (∀ n v : String, v ≠ "" → label n v "" = n ++ "-" ++ v) ∧
    (∀ n : String, label n "" "" = n) := by
  refine ⟨?_, ?_, ?_, ?_, ?_, ?_⟩
  · simp [RPM.stateDifferent, plan.EmptyState, plan.State.IsEmpty]
  · intro current h
    simp [RPM.stateDifferent, h]
  · intro current h
    rw [stateDifferent_eq, h]
    simp only [Bool.false_or, Bool.not_eq_false_eq_eq_true, strings.HasPrefix_iff] 
    constructor
    · intro hp
      exact Or.inr hp
    · rintro (heq | hp)
      · exact ⟨"", by rw [heq]; exact String.ext (by simp [String.data_append])⟩
      · exact hp
  · intro n v r hr
    simp [label, hr]
  · intro n v hv
    simp [label, hv]
  · intro n
    simp [label]

/-- Witness of C10: desired httpd-2.4 against the installed httpd-2.4-6, whose label
starts with the desired one. -/
theorem C10_stateDifferent_is_prefix_comparison_witness :
    RPM.stateDifferent { Name := "httpd", Version := "2.4" } (installed "httpd" "2.4" "6") = false :=
  ((C10_stateDifferent_is_prefix_comparison { Name := "httpd", Version := "2.4" }).2.2.1
    (installed "httpd" "2.4" "6") rfl).2 (Or.inr ⟨"-6", by decide⟩)

/-! ## Underspecified desired packages -/

theorem HasPrefix_append (s t : String) : strings.HasPrefix (s ++ t) s = true :=
  (strings.HasPrefix_iff (s ++ t) s).2 ⟨t, rfl⟩

theorem HasPrefix_self (s : String) : strings.HasPrefix s s = true :=
  (strings.HasPrefix_iff s s).2 ⟨"", String.ext (by simp [String.data_append])⟩

/-- A desired package without release is a prefix of every installed label with its
name and version, and one without version and release of every installed label with
its name. -/
theorem label_underspecified (n v r : String) :
    strings.HasPrefix (label n v r) (label n v "") = true ∧
    strings.HasPrefix (label n v r) (label n "" "") = true := by
  constructor
  · rw [strings.HasPrefix_iff]
    by_cases hr : r = "" <;> by_cases hv : v = ""
    · exact ⟨"", by simp [label, hr, hv]⟩
    · exact ⟨"", by simp [label, hr, hv]⟩
    · exact ⟨"-" ++ "-" ++ r, by simp [label, hr, hv, String.append_assoc]⟩
    · exact ⟨"-" ++ r, by simp [label, hr, hv, String.append_assoc]⟩
  · rw [strings.HasPrefix_iff]
    by_cases hr : r = "" <;> by_cases hv : v = ""
    · exact ⟨"", by simp [label, hr, hv]⟩
    · exact ⟨"-" ++ v, by simp [label, hr, hv, String.append_assoc]⟩
    · exact ⟨"-" ++ "-" ++ r, by simp [label, hr, hv, String.append_assoc]⟩
    · exact ⟨"-" ++ v ++ "-" ++ r, by simp [label, hr, hv, String.append_assoc]⟩

/-- C11: an underspecified desired package does not force a reinstallation. For
every name n, version v and release r, and every non-empty current state that
reports (n, v, r): the desired RPM with name n, version v and no release, and the
desired RPM with name n and neither version nor release, are both reported as not
different, and Apply returns `(false, nil)` with the world (host and log of
commands) as it was. -/
theorem C11_underspecified_desired_not_different {σ : Type}
    (Compare : version.Interface → version.Interface → Int)
    (n v r : String) (flag : Bool) (excludes : String)
    (rn : plan.Runner σ) (diff : plan.Diff) (w : plan.World σ)
    (hne : diff.CurrentState.IsEmpty = false)
    (hn : diff.CurrentState.String "name" = n)
    (hv : diff.CurrentState.String "version" = v)
    (hr : diff.CurrentState.String "release" = r) :
    RPM.stateDifferent
        { Name := n, Version := v, Release := "", IgnoreOtherVersions := flag,
          DisableExcludes := excludes } diff.CurrentState = false ∧
    RPM.Apply Compare
        { Name := n, Version := v, Release := "", IgnoreOtherVersions := flag,
          DisableExcludes := excludes } rn diff w = ((false, none), w) ∧
    RPM.stateDifferent
        { Name := n, Version := "", Release := "", IgnoreOtherVersions := flag,
          DisableExcludes := excludes } diff.CurrentState = false ∧
    RPM.Apply Compare
        { Name := n, Version := "", Release := "", IgnoreOtherVersions := flag,
          DisableExcludes := excludes } rn diff w = ((false, none), w) := by
  have h1 : RPM.stateDifferent
      { Name := n, Version := v, Release := "", IgnoreOtherVersions := flag,
        DisableExcludes := excludes } diff.CurrentState = false := by
    rw [stateDifferent_eq, hne, hn, hv, hr]
    simp [RPM.label, (label_underspecified n v r).1]
  have h2 : RPM.stateDifferent
      { Name := n, Version := "", Release := "", IgnoreOtherVersions := flag,
        DisableExcludes := excludes } diff.CurrentState = false := by
    rw [stateDifferent_eq, hne, hn, hv, hr]
    simp [RPM.label, (label_underspecified n v r).2]
  exact ⟨h1, Apply_same Compare _ rn diff w h1, h2, Apply_same Compare _ rn diff w h2⟩

/-- Witness of C11: httpd 2.4 6.el7 is installed; desired are httpd 2.4 and httpd. -/
theorem C11_underspecified_desired_not_different_witness :
    RPM.stateDifferent { Name := "httpd", Version := "2.4" }
        (installed "httpd" "2.4" "6.el7") = false ∧
    RPM.Apply version.Compare { Name := "httpd", Version := "2.4" } (constRunner "" none)
        ⟨installed "httpd" "2.4" "6.el7"⟩ ⟨(), []⟩ = ((false, none), ⟨(), []⟩) ∧
    RPM.stateDifferent { Name := "httpd" } (installed "httpd" "2.4" "6.el7") = false ∧
    RPM.Apply version.Compare { Name := "httpd" } (constRunner "" none)
        ⟨installed "httpd" "2.4" "6.el7"⟩ ⟨(), []⟩ = ((false, none), ⟨(), []⟩) :=
  C11_underspecified_desired_not_different version.Compare "httpd" "2.4" "6.el7" false ""
    (constRunner "" none) ⟨installed "httpd" "2.4" "6.el7"⟩ ⟨(), []⟩ rfl rfl rfl rfl

/-! ## WouldChangeState -/

theorem strings.splitChars_of_not_mem (sep : Char) (a : List Char) (h : sep ∉ a) :
    strings.splitChars sep a = [a] := by
  induction a with
  | nil => rfl
  | cons c cs ih =>
    have hc : ¬ c = sep := fun e => h (by simp [e])
    have hcs : sep ∉ cs := fun e => h (List.mem_cons_of_mem _ e)
    simp [strings.splitChars, hc, ih hcs]

theorem strings.splitChars_append_sep (sep : Char) (a rest : List Char) (h : sep ∉ a) :
    strings.splitChars sep (a ++ sep :: rest) = a :: strings.splitChars sep rest := by
  induction a with
  | nil => simp [strings.splitChars]
  | cons c cs ih =>
    have hc : ¬ c = sep := fun e => h (by simp [e])
    have hcs : sep ∉ cs := fun e => h (List.mem_cons_of_mem _ e)
    simp [strings.splitChars, hc, ih hcs]

theorem strings.not_mem_of_Contains_eq_false (s : String) (c : Char)
    (h : strings.Contains s (String.mk [c]) = false) : c ∉ s.data := by
  intro hmem
  have : strings.Contains s (String.mk [c]) = true := by
    unfold strings.Contains
    rw [strings.containsChars_iff]
    obtain ⟨a, b, hab⟩ := List.append_of_mem hmem
    exact ⟨a, b, by simp [hab]⟩
  rw [this] at h
  exact Bool.noConfusion h

/-- Three fields without a space, joined by single spaces, split into themselves. -/
theorem strings.SplitSpace_three (n v r : String)
    (hn : strings.Contains n " " = false) (hv : strings.Contains v " " = false)
    (hr : strings.Contains r " " = false) :
    strings.SplitSpace (n ++ " " ++ v ++ " " ++ r) = [n, v, r] := by
  have h1 := strings.not_mem_of_Contains_eq_false n ' ' hn
  have h2 := strings.not_mem_of_Contains_eq_false v ' ' hv
  have h3 := strings.not_mem_of_Contains_eq_false r ' ' hr
  unfold strings.SplitSpace
  have hd : (n ++ " " ++ v ++ " " ++ r).data = n.data ++ ' ' :: (v.data ++ ' ' :: r.data) := by
    simp [String.data_append]
  rw [hd, strings.splitChars_append_sep _ _ _ h1, strings.splitChars_append_sep _ _ _ h2,
    strings.splitChars_of_not_mem _ _ h3]
  rfl

theorem State_String_toState (q : RPM) :
    (toState q).String "name" = q.Name ∧ (toState q).String "version" = q.Version ∧
    (toState q).String "release" = q.Release := by
  have h := rpmState.toInterface_State q
  simp only [rpmState.toInterface, RPM.State, version.Interface.mk.injEq] at h
  exact ⟨h.1, h.2.2.1, h.2.2.2⟩

theorem toState_not_empty (q : RPM) : (toState q).IsEmpty = false := by
  simp [toState, plan.State.IsEmpty]

/-- The state of a package is not different from a desired package with the same
name, version and release. -/
theorem stateDifferent_toState (p q : RPM) (hn : q.Name = p.Name) (hv : q.Version = p.Version)
    (hr : q.Release = p.Release) : p.stateDifferent (toState q) = false := by
  obtain ⟨h1, h2, h3⟩ := State_String_toState q
  rw [stateDifferent_eq, toState_not_empty, h1, h2, h3, hn, hv, hr]
  simp [RPM.label, HasPrefix_self]

/-- C12: WouldChangeState is the composition of QueryState and `stateDifferent`.
When QueryState returns an error, WouldChangeState returns `(false, err)` with that
error; when QueryState returns a state and a nil error, WouldChangeState returns
`stateDifferent` of that state and a nil error; the world is the one QueryState
leaves. In particular, when the query succeeds and its result line is the name, the
version and the release of the desired package, separated by single spaces (none of
the three containing a space), WouldChangeState returns `(false, nil)`. -/
theorem C12_wouldChangeState_composes {σ : Type} (line : String → String)
    (p : RPM) (r : plan.Runner σ) (w : plan.World σ) :
    (∀ (s : plan.State) (e : String),
      (p.QueryState line r w).1 = Outcome.ret (s, some e) →
      p.WouldChangeState line r w = (Outcome.ret (false, some e), (p.QueryState line r w).2)) ∧
    (∀ s : plan.State,
      (p.QueryState line r w).1 = Outcome.ret (s, none) →
      p.WouldChangeState line r w
        = (Outcome.ret (p.stateDifferent s, none), (p.QueryState line r w).2)) ∧
    (∀ out : String,
      (r p.queryCmd w.host).1 = (out, none) →
      line out = p.Name ++ " " ++ p.Version ++ " " ++ p.Release →
      strings.Contains p.Name " " = false →
      strings.Contains p.Version " " = false →
      strings.Contains p.Release " " = false →
      (p.WouldChangeState line r w).1 = Outcome.ret (false, none)) := by
  refine ⟨?_, ?_, ?_⟩
  · intro s e h
    unfold RPM.WouldChangeState
    rcases hq : p.QueryState line r w with ⟨o, w1⟩
    rw [hq] at h
    simp only at h
    subst h
    simp
  · intro s h
    unfold RPM.WouldChangeState
    rcases hq : p.QueryState line r w with ⟨o, w1⟩
    rw [hq] at h
    simp only at h
    subst h
    simp
  · intro out hrun hline hn hv hr
    have hq : (p.QueryState line r w).1
        = Outcome.ret (RPM.State { Name := p.Name, Version := p.Version, Release := p.Release },
            none) := by
      simp [RPM.QueryState, plan.RunCommand, hrun, hline, strings.SplitSpace_three _ _ _ hn hv hr]
    unfold RPM.WouldChangeState
    rcases hq2 : p.QueryState line r w with ⟨o, w1⟩
    rw [hq2] at hq
    simp only at hq
    subst hq
    simp only [RPM.State, Option.isSome_none, Bool.false_eq_true, if_false]
    rw [stateDifferent_toState p
      { Name := p.Name, Version := p.Version, Release := p.Release } rfl rfl rfl]

/-- Witness of C12: desired httpd 2.4 6, the host reports `httpd 2.4 6`. -/
theorem C12_wouldChangeState_composes_witness :
    (RPM.WouldChangeState line { Name := "httpd", Version := "2.4", Release := "6" }
      (constRunner "httpd 2.4 6\n" none) ⟨(), []⟩).1 = Outcome.ret (false, none) :=
  (C12_wouldChangeState_composes line { Name := "httpd", Version := "2.4", Release := "6" }
    (constRunner "httpd 2.4 6\n" none) ⟨(), []⟩).2.2 "httpd 2.4 6\n" rfl (by decide)
    (by decide) (by decide) (by decide)

/-! ## The DisableExcludes modifier -/

/-- The command of Apply in terms of the name, the version and the release of the
desired package: the three-way choice, then the suffix for DisableExcludes. -/
theorem applyCmd_eq (Compare : version.Interface → version.Interface → Int)
    (p : RPM) (diff : plan.Diff) :
    p.applyCmd Compare diff =
      (if diff.CurrentState.IsEmpty then "yum -y install " ++ label p.Name p.Version p.Release
        else if Compare (rpmState.toInterface diff.CurrentState)
            { Name := p.Name, Epoch := 0, Version := p.Version, Release := p.Release } < 0 then
          "yum -y upgrade-to " ++ label p.Name p.Version p.Release
        else if Compare { Name := p.Name, Epoch := 0, Version := p.Version, Release := p.Release }
            (rpmState.toInterface diff.CurrentState) < 0 then
          "yum -y remove " ++ p.Name ++ " && yum -y install " ++ label p.Name p.Version p.Release
        else "")
      ++ (if p.DisableExcludes ≠ "" then " --disableexcludes " ++ p.DisableExcludes else "") := by
  by_cases hx : p.DisableExcludes = ""
  · simp [RPM.applyCmd, lowerRevisionThan, rpmState.toInterface_State, RPM.label, hx]
  · simp [RPM.applyCmd, lowerRevisionThan, rpmState.toInterface_State, RPM.label, hx,
      String.append_assoc]

/-- The log of Apply: unchanged without a difference, one more command with one. -/
theorem Apply_log {σ : Type} (Compare : version.Interface → version.Interface → Int)
    (p : RPM) (r : plan.Runner σ) (diff : plan.Diff) (w : plan.World σ) :
    (p.Apply Compare r diff w).2.log =
      if p.stateDifferent diff.CurrentState then w.log ++ [p.applyCmd Compare diff] else w.log := by
  cases h : p.stateDifferent diff.CurrentState
  · rw [Apply_same Compare p r diff w h]; simp
  · rw [Apply_different Compare p r diff w h]; simp

/-- C13: the DisableExcludes modifier only appends a flag. Whenever the RPM with
DisableExcludes empty issues a command c for a diff, the same RPM with
DisableExcludes = x (x not empty) issues for that diff exactly c followed by
` --disableexcludes ` and x; and c itself is one of the plain commands (install,
upgrade-to, remove and install of the desired package, or the empty command), to
which no flag was appended. -/
theorem C13_disableExcludes_appends_flag {σ : Type}
    (Compare : version.Interface → version.Interface → Int)
    (p : RPM) (x : String) (r : plan.Runner σ) (diff : plan.Diff) (w : plan.World σ) (c : String)
    (hc : (RPM.Apply Compare { p with DisableExcludes := "" } r diff w).2.log = w.log ++ [c]) :
    (x ≠ "" →
      (RPM.Apply Compare { p with DisableExcludes := x } r diff w).2.log
        = w.log ++ [c ++ " --disableexcludes " ++ x]) ∧
    c ∈ ["yum -y install " ++ p.label, "yum -y upgrade-to " ++ p.label,
      "yum -y remove " ++ p.Name ++ " && yum -y install " ++ p.label, ""] := by
  rw [Apply_log] at hc
  have hsd : ∀ y : String, RPM.stateDifferent { p with DisableExcludes := y } diff.CurrentState
      = p.stateDifferent diff.CurrentState := fun _ => rfl
  rw [hsd] at hc
  cases hd : p.stateDifferent diff.CurrentState
  · rw [hd] at hc
    simp at hc
  · rw [hd] at hc
    simp only [if_true] at hc
    have hc0 : RPM.applyCmd Compare { p with DisableExcludes := "" } diff = c := by
      simpa using hc
    rw [applyCmd_eq] at hc0
    constructor
    · intro hx
      rw [Apply_log, hsd, hd]
      simp only [if_true]
      rw [applyCmd_eq, ← hc0]
      simp [hx, String.append_assoc]
    · rw [← hc0]
      simp only [RPM.label]
      by_cases h1 : diff.CurrentState.IsEmpty = true
      · simp [h1]
      · by_cases h2 : Compare (rpmState.toInterface diff.CurrentState)
            { Name := p.Name, Epoch := 0, Version := p.Version, Release := p.Release } < 0
        · simp [h1, h2]
        · by_cases h3 : Compare
              { Name := p.Name, Epoch := 0, Version := p.Version, Release := p.Release }
              (rpmState.toInterface diff.CurrentState) < 0
          · simp [h1, h2, h3]
          · simp [h1, h2, h3]

/-- Witness of C13: desired httpd 2.4 6 with nothing installed, without and with
DisableExcludes = kubernetes. -/
theorem C13_disableExcludes_appends_flag_witness :
    (RPM.Apply version.Compare
        { Name := "httpd", Version := "2.4", Release := "6", DisableExcludes := "kubernetes" }
        (constRunner "" none) ⟨plan.EmptyState⟩ ⟨(), []⟩).2.log
      = [] ++ ["yum -y install httpd-2.4-6" ++ " --disableexcludes " ++ "kubernetes"] :=
  (C13_disableExcludes_appends_flag version.Compare
    { Name := "httpd", Version := "2.4", Release := "6" } "kubernetes"
    (constRunner "" none) ⟨plan.EmptyState⟩ ⟨(), []⟩ "yum -y install httpd-2.4-6" (by decide)).1
    (by decide)

/-! ## Undo -/

/-- C14: Undo sends a single command, `yum -y remove <target> || true`, where the
target is the label of the package when IgnoreOtherVersions is true and its bare
name when the flag is false; the host makes the step of that command, and Undo
returns exactly the error of that call. -/
theorem C14_undo_removes_target {σ : Type} (p : RPM) (r : plan.Runner σ)
    (current : plan.State) (w : plan.World σ) :
    (p.IgnoreOtherVersions = true →
      p.Undo r current w =
        ((r ("yum -y remove " ++ p.label ++ " || true") w.host).1.2,
          { host := (r ("yum -y remove " ++ p.label ++ " || true") w.host).2,
            log := w.log ++ ["yum -y remove " ++ p.label ++ " || true"] })) ∧
    (p.IgnoreOtherVersions = false →
      p.Undo r current w =
        ((r ("yum -y remove " ++ p.Name ++ " || true") w.host).1.2,
          { host := (r ("yum -y remove " ++ p.Name ++ " || true") w.host).2,
            log := w.log ++ ["yum -y remove " ++ p.Name ++ " || true"] })) := by
  constructor <;> intro h <;> simp [RPM.Undo, undoAction, plan.RunCommand, h]

/-- Witness of C14: the package foo 1.0 1 with and without IgnoreOtherVersions; the
runner fails with `exit status 1`. -/
theorem C14_undo_removes_target_witness :
    RPM.Undo { Name := "foo", Version := "1.0", Release := "1", IgnoreOtherVersions := true }
        (constRunner "" (some "exit status 1")) plan.EmptyState ⟨(), []⟩
      = (some "exit status 1", ⟨(), ["yum -y remove foo-1.0-1 || true"]⟩) ∧
    RPM.Undo { Name := "foo", Version := "1.0", Release := "1", IgnoreOtherVersions := false }
        (constRunner "" (some "exit status 1")) plan.EmptyState ⟨(), []⟩
      = (some "exit status 1", ⟨(), ["yum -y remove foo || true"]⟩) :=
  ⟨(C14_undo_removes_target
      { Name := "foo", Version := "1.0", Release := "1", IgnoreOtherVersions := true }
      (constRunner "" (some "exit status 1")) plan.EmptyState ⟨(), []⟩).1 rfl,
   (C14_undo_removes_target
      { Name := "foo", Version := "1.0", Release := "1", IgnoreOtherVersions := false }
      (constRunner "" (some "exit status 1")) plan.EmptyState ⟨(), []⟩).2 rfl⟩

/-- C15, counterexample: the package foo 1.0 1 with IgnoreOtherVersions left at its
default value. Undo removes the bare name `foo`, not the label `foo-1.0-1`. -/
theorem C15_default_removes_bare_name_counterexample :
    (RPM.Undo { Name := "foo", Version := "1.0", Release := "1" }
      (constRunner "" none) plan.EmptyState ⟨(), []⟩).2.log = ["yum -y remove foo || true"] ∧
    (RPM.Undo { Name := "foo", Version := "1.0", Release := "1" }
      (constRunner "" none) plan.EmptyState ⟨(), []⟩).2.log
      ≠ ["yum -y remove " ++ RPM.label { Name := "foo", Version := "1.0", Release := "1" }
          ++ " || true"] := by
  decide

theorem label_eq_name_hyphen (p : RPM) (hv : p.Version ≠ "") :
    ∃ t : String, p.label = p.Name ++ "-" ++ t := by
  unfold RPM.label label
  by_cases hr : p.Release = ""
  · exact ⟨p.Version, by simp [hr, hv]⟩
  · exact ⟨p.Version ++ "-" ++ p.Release, by simp [hr, String.append_assoc]⟩

theorem label_ne_name (p : RPM) (hv : p.Version ≠ "") :
    "yum -y remove " ++ p.Name ++ " || true" ≠ "yum -y remove " ++ p.label ++ " || true" := by
  obtain ⟨t, ht⟩ := label_eq_name_hyphen p hv
  rw [ht]
  intro h
  have hd := congrArg String.data h
  simp only [String.data_append, List.append_assoc, List.append_cancel_left_eq] at hd
  have h0 := congrArg List.head? hd
  simp only [List.singleton_append, List.head?_cons, Option.some.injEq] at h0
  exact absurd h0 (by decide)

/-- C15, amended: removal by the bare package name is the default. For every RPM
whose IgnoreOtherVersions flag is false, Undo sends `yum -y remove <Name> || true`;
when the Version is not empty this is not the command that removes the exact label,
so another installed version with the same name is removed as well. The exact label
is removed only when the caller sets IgnoreOtherVersions. -/
theorem C15_default_removes_bare_name {σ : Type} (p : RPM) (r : plan.Runner σ)
    (current : plan.State) (w : plan.World σ)
    (hflag : p.IgnoreOtherVersions = false) (hv : p.Version ≠ "") :
    (p.Undo r current w).2.log = w.log ++ ["yum -y remove " ++ p.Name ++ " || true"] ∧
    (p.Undo r current w).2.log ≠ w.log ++ ["yum -y remove " ++ p.label ++ " || true"] ∧
    (RPM.Undo { p with IgnoreOtherVersions := true } r current w).2.log
      = w.log ++ ["yum -y remove " ++ p.label ++ " || true"] := by
  have h1 : (p.Undo r current w).2.log
      = w.log ++ ["yum -y remove " ++ p.Name ++ " || true"] := by
    simp [RPM.Undo, undoAction, plan.RunCommand, hflag]
  refine ⟨h1, ?_, ?_⟩
  · rw [h1]
    intro h
    have h2 := List.append_cancel_left h
    simp only [List.cons.injEq, and_true] at h2
    exact label_ne_name p hv h2
  · simp [RPM.Undo, undoAction, plan.RunCommand, RPM.label]

/-- Witness of C15, amended: the package foo 1.0 1 with the flag at its default. -/
theorem C15_default_removes_bare_name_witness :
    (RPM.Undo { Name := "foo", Version := "1.0", Release := "1" }
      (constRunner "" none) plan.EmptyState ⟨(), []⟩).2.log
      = [] ++ ["yum -y remove " ++ "foo" ++ " || true"] :=
  (C15_default_removes_bare_name { Name := "foo", Version := "1.0", Release := "1" }
    (constRunner "" none) plan.EmptyState ⟨(), []⟩ rfl (by decide)).1

/-! ## QueryState: one round trip, no cache -/

/-- The result of QueryState is the result against a host that gives the same
answer. -/
theorem QueryState_result {σ : Type} (line : String → String) (p : RPM) (r : plan.Runner σ)
    (w : plan.World σ) :
    (p.QueryState line r w).1 =
      (p.QueryState line
        (constRunner (r p.queryCmd w.host).1.1 (r p.queryCmd w.host).1.2) ⟨(), []⟩).1 := by
  simp only [RPM.QueryState, plan.RunCommand, constRunner]
  split
  · rfl
  · split
    · rfl
    · split <;> rfl

theorem QueryState_world {σ : Type} (line : String → String) (p : RPM) (r : plan.Runner σ)
    (w : plan.World σ) :
    (p.QueryState line r w).2 =
      { host := (r p.queryCmd w.host).2, log := w.log ++ [p.queryCmd] } := by
  simp only [RPM.QueryState, plan.RunCommand]
  split
  · rfl
  · split
    · rfl
    · split <;> rfl

/-- C16: QueryState performs exactly one round trip and does not cache. Each call
sends exactly one command, the query `rpm -q --queryformat ...` for the label of the
package, and the host makes the step of that command; the result is the one that
the answer of that call alone determines (the result against a host that always
gives this answer); hence of two calls in a row the second returns what the second
answer determines. With the answers `foo 1.0 1` and then `foo 2.0 1` the two calls
return the states of foo 1.0 1 and of foo 2.0 1. -/
theorem C16_queryState_one_round_trip_no_cache {σ : Type} (line : String → String)
    (p : RPM) (r : plan.Runner σ) (w : plan.World σ) :
    (p.QueryState line r w).2.log = w.log ++
      ["rpm -q --queryformat '%\x7bNAME\x7d %\x7bVERSION\x7d %\x7bRELEASE\x7d\\n' " ++ p.label] ∧
    (p.QueryState line r w).2.host = (r p.queryCmd w.host).2 ∧
    (p.QueryState line r w).1 =
      (p.QueryState line
        (constRunner (r p.queryCmd w.host).1.1 (r p.queryCmd w.host).1.2) ⟨(), []⟩).1 ∧
    (p.QueryState line r (p.QueryState line r w).2).1 =
      (p.QueryState line
        (constRunner (r p.queryCmd (r p.queryCmd w.host).2).1.1
          (r p.queryCmd (r p.queryCmd w.host).2).1.2) ⟨(), []⟩).1 ∧
    (p.QueryState line r (p.QueryState line r w).2).2.log
      = w.log ++ [p.queryCmd, p.queryCmd] ∧
    ((RPM.QueryState Wksctl.line { Name := "foo" } scriptRunner
        ⟨[("foo 1.0 1\n", none), ("foo 2.0 1\n", none)], []⟩).1
        = Outcome.ret (installed "foo" "1.0" "1", none) ∧
      (RPM.QueryState Wksctl.line { Name := "foo" } scriptRunner
        (RPM.QueryState Wksctl.line { Name := "foo" } scriptRunner
          ⟨[("foo 1.0 1\n", none), ("foo 2.0 1\n", none)], []⟩).2).1
        = Outcome.ret (installed "foo" "2.0" "1", none)) := by
  refine ⟨?_, ?_, QueryState_result line p r w, ?_, ?_, ?_⟩
  · rw [QueryState_world]; rfl
  · rw [QueryState_world]
  · rw [QueryState_result line p r (p.QueryState line r w).2, QueryState_world]
  · rw [QueryState_world, QueryState_world]; simp
  · decide

/-! ## The seed-node orchestration -/

/-- When the first three steps succeed, `SetupSeedNode` is invoked, whatever
`addons.UpdateImage` returns, and the error of `initiateCluster` is nil exactly
when `SetupSeedNode` returns nil. -/
theorem initiateCluster_ignores_UpdateImage_error (c : apply.Collaborators) (a : apply.Applier)
    (clusterManifestPath machinesManifestPath token : String)
    (h1 : c.GetSSHClient (c.NewFromPaths clusterManifestPath machinesManifestPath)
      a.Params.verbose = none)
    (h2 : c.Identify = none) (h3 : c.GenerateBootstrapToken = (token, none)) :
    apply.invokesSetupSeedNode
      (apply.Applier.initiateCluster c a clusterManifestPath machinesManifestPath).2 = true := by
  simp only [apply.Applier.initiateCluster, h1, h2, h3]
  split <;> simp [apply.invokesSetupSeedNode]

/-- When one of the first three steps fails, `initiateCluster` returns a non-nil
error and `SetupSeedNode` is not invoked. -/
theorem initiateCluster_first_steps_abort (c : apply.Collaborators) (a : apply.Applier)
    (clusterManifestPath machinesManifestPath : String)
    (h : (c.GetSSHClient (c.NewFromPaths clusterManifestPath machinesManifestPath)
        a.Params.verbose).isSome = true ∨ c.Identify.isSome = true ∨
      c.GenerateBootstrapToken.2.isSome = true) :
    (apply.Applier.initiateCluster c a clusterManifestPath machinesManifestPath).1.isSome = true ∧
    apply.invokesSetupSeedNode
      (apply.Applier.initiateCluster c a clusterManifestPath machinesManifestPath).2 = false := by
  cases h1 : c.GetSSHClient (c.NewFromPaths clusterManifestPath machinesManifestPath)
      a.Params.verbose with
  | some e => simp [apply.Applier.initiateCluster, h1, errors.Wrap, apply.invokesSetupSeedNode]
  | none =>
    cases h2 : c.Identify with
    | some e =>
      simp [apply.Applier.initiateCluster, h1, h2, errors.Wrap, apply.invokesSetupSeedNode]
    | none =>
      rcases h3 : c.GenerateBootstrapToken with ⟨token, e3⟩
      cases e3 with
      | some e =>
        simp [apply.Applier.initiateCluster, h1, h2, h3, errors.Wrap, apply.invokesSetupSeedNode]
      | none => simp [h1, h2, h3] at h

/-- C17, the code at the failing input: the SSH client, the identification of the
operating system and the bootstrap token succeed, `addons.UpdateImage` returns an
error, and `SetupSeedNode` succeeds. `initiateCluster` returns nil and
`SetupSeedNode` is invoked, with the image that `UpdateImage` returned beside its
error. -/
theorem C17_updateImage_error_does_not_abort :
    ((apply.exampleCollaborators "" (some "invalid image")).UpdateImage
        apply.exampleParams.controllerImage "registry:5000").2 = some "invalid image" ∧
    (apply.Applier.initiateCluster (apply.exampleCollaborators "" (some "invalid image"))
      ⟨apply.exampleParams⟩ "cluster.yaml" "machines.yaml").1 = none ∧
    apply.invokesSetupSeedNode
      (apply.Applier.initiateCluster (apply.exampleCollaborators "" (some "invalid image"))
        ⟨apply.exampleParams⟩ "cluster.yaml" "machines.yaml").2 = true := by
  decide

/-! ## What "not different" says about the fields -/

theorem prefix_sep_cancel (c : Char) (a b x y : List Char) (ha : c ∉ a) (hb : c ∉ b)
    (h : a ++ c :: x <+: b ++ c :: y) : a = b ∧ x <+: y := by
  induction a generalizing b with
  | nil =>
    cases b with
    | nil =>
      simp only [List.nil_append] at h
      exact ⟨rfl, (List.prefix_cons_inj c).1 h⟩
    | cons d ds =>
      simp only [List.nil_append, List.cons_append] at h
      have hd := (List.cons_prefix_cons.1 h).1
      exact absurd (by simp [hd]) hb
  | cons e es ih =>
    cases b with
    | nil =>
      simp only [List.nil_append, List.cons_append] at h
      have hd := (List.cons_prefix_cons.1 h).1
      exact absurd (by simp [hd]) ha
    | cons d ds =>
      simp only [List.cons_append] at h
      obtain ⟨hd, ht⟩ := List.cons_prefix_cons.1 h
      have := ih ds (fun m => ha (List.mem_cons_of_mem _ m))
        (fun m => hb (List.mem_cons_of_mem _ m)) ht
      exact ⟨by rw [hd, this.1], this.2⟩

theorem prefix_of_prefix_sep (c : Char) (a b y : List Char) (ha : c ∉ a)
    (h : a <+: b ++ c :: y) : a <+: b := by
  induction a generalizing b with
  | nil => exact List.nil_prefix
  | cons e es ih =>
    cases b with
    | nil =>
      simp only [List.nil_append] at h
      have hd := (List.cons_prefix_cons.1 h).1
      exact absurd (by simp [hd]) ha
    | cons d ds =>
      simp only [List.cons_append] at h
      obtain ⟨hd, ht⟩ := List.cons_prefix_cons.1 h
      rw [hd]
      exact List.cons_prefix_cons.2
        ⟨rfl, ih ds (fun m => ha (List.mem_cons_of_mem _ m)) ht⟩

theorem sep_prefix_impossible (c : Char) (a x b : List Char) (hb : c ∉ b) :
    ¬ (a ++ c :: x <+: b) := by
  intro h
  exact hb (h.subset (by simp))

theorem label_data (n v r : String) :
    (label n v r).data =
      if r ≠ "" then n.data ++ '-' :: (v.data ++ '-' :: r.data)
      else if v ≠ "" then n.data ++ '-' :: v.data
      else n.data := by
  unfold label
  by_cases hr : r = "" <;> by_cases hv : v = "" <;> simp [hr, hv, String.data_append]

/-- The fields behind two labels of which one starts with the other, when names and
versions have no hyphen. -/
theorem label_prefix_fields (N V R n v r : String)
    (hN : '-' ∉ N.data) (hV : '-' ∉ V.data) (hn : '-' ∉ n.data) (hv : '-' ∉ v.data)
    (h : (label N V R).data <+: (label n v r).data) :
    (R ≠ "" → n = N ∧ v = V ∧ R.data <+: r.data) ∧
    (R = "" → V ≠ "" → n = N ∧ V.data <+: v.data) ∧
    (R = "" → V = "" → N.data <+: n.data) := by
  rw [label_data, label_data] at h
  refine ⟨?_, ?_, ?_⟩
  · intro hR
    simp only [hR, ne_eq, not_false_eq_true, if_true] at h
    by_cases hr : r = ""
    · by_cases hv0 : v = ""
      · simp only [hr, hv0, ne_eq, not_true_eq_false, if_false] at h
        exact absurd h (sep_prefix_impossible '-' _ _ _ hn)
      · simp only [hr, hv0, ne_eq, not_true_eq_false, not_false_eq_true, if_false, if_true] at h
        have h1 := prefix_sep_cancel '-' _ _ _ _ hN hn h
        exact absurd h1.2 (sep_prefix_impossible '-' _ _ _ hv)
    · simp only [hr, ne_eq, not_false_eq_true, if_true] at h
      have h1 := prefix_sep_cancel '-' _ _ _ _ hN hn h
      have h2 := prefix_sep_cancel '-' _ _ _ _ hV hv h1.2
      exact ⟨String.ext h1.1.symm, String.ext h2.1.symm, h2.2⟩
  · intro hR hV0
    simp only [hR, hV0, ne_eq, not_true_eq_false, not_false_eq_true, if_false, if_true] at h
    by_cases hr : r = ""
    · by_cases hv0 : v = ""
      · simp only [hr, hv0, ne_eq, not_true_eq_false, if_false] at h
        exact absurd h (sep_prefix_impossible '-' _ _ _ hn)
      · simp only [hr, hv0, ne_eq, not_true_eq_false, not_false_eq_true, if_false, if_true] at h
        have h1 := prefix_sep_cancel '-' _ _ _ _ hN hn h
        exact ⟨String.ext h1.1.symm, h1.2⟩
    · simp only [hr, ne_eq, not_false_eq_true, if_true] at h
      have h1 := prefix_sep_cancel '-' _ _ _ _ hN hn h
      exact ⟨String.ext h1.1.symm, prefix_of_prefix_sep '-' _ _ _ hV h1.2⟩
  · intro hR hV0
    simp only [hR, hV0, ne_eq, not_true_eq_false, if_false] at h
    by_cases hr : r = ""
    · by_cases hv0 : v = ""
      · simpa [hr, hv0] using h
      · simp only [hr, hv0, ne_eq, not_true_eq_false, not_false_eq_true, if_false, if_true] at h
        exact prefix_of_prefix_sep '-' _ _ _ hN h
    · simp only [hr, ne_eq, not_false_eq_true, if_true] at h
      exact prefix_of_prefix_sep '-' _ _ _ hN h

/-- C18, counterexample: states that `stateDifferent` reports as not different
although a field differs. Desired foo against the installed foobar 1.0 1 (the name
differs), desired foo 1.0 against the installed foo 1.0.5 1 (the version differs),
desired foo 1.0 1 against the installed foo 1.0 10 (the release differs). -/
theorem C18_not_different_fields_counterexample :
    (RPM.stateDifferent { Name := "foo" } (installed "foobar" "1.0" "1") = false ∧
      (installed "foobar" "1.0" "1").String "name" ≠ "foo") ∧
    (RPM.stateDifferent { Name := "foo", Version := "1.0" } (installed "foo" "1.0.5" "1") = false ∧
      (installed "foo" "1.0.5" "1").String "version" ≠ "1.0") ∧
    (RPM.stateDifferent { Name := "foo", Version := "1.0", Release := "1" }
        (installed "foo" "1.0" "10") = false ∧
      (installed "foo" "1.0" "10").String "release" ≠ "1") := by
  decide

/-- C18, amended: whenever `stateDifferent` reports a non-empty current state as not
different, the installed label starts with the desired label. Field by field, when
the names and the versions (desired and installed) contain no hyphen: every desired
field before the last non-empty one equals the installed field, and the installed
field starts with the last non-empty desired field. That is, with a desired Release
the installed name and version equal the desired ones and the installed release
starts with the desired Release; with a desired Version and no Release the installed
name equals the desired Name and the installed version starts with the desired
Version; with a Name only the installed name starts with the desired Name. -/
theorem C18_not_different_fields (p : RPM) (current : plan.State)
    (hne : current.IsEmpty = false) (hsame : p.stateDifferent current = false) :
    strings.HasPrefix
      (label (current.String "name") (current.String "version") (current.String "release"))
      p.label = true ∧
    (strings.Contains p.Name "-" = false → strings.Contains p.Version "-" = false →
      strings.Contains (current.String "name") "-" = false →
      strings.Contains (current.String "version") "-" = false →
      (p.Release ≠ "" →
        current.String "name" = p.Name ∧ current.String "version" = p.Version ∧
        strings.HasPrefix (current.String "release") p.Release = true) ∧
      (p.Release = "" → p.Version ≠ "" →
        current.String "name" = p.Name ∧
        strings.HasPrefix (current.String "version") p.Version = true) ∧
      (p.Release = "" → p.Version = "" →
        strings.HasPrefix (current.String "name") p.Name = true)) := by
  have hp : strings.HasPrefix
      (label (current.String "name") (current.String "version") (current.String "release"))
      p.label = true := by
    rw [stateDifferent_eq, hne] at hsame
    simpa using hsame
  refine ⟨hp, ?_⟩
  intro hN hV hn hv
  have hpre : (label p.Name p.Version p.Release).data <+:
      (label (current.String "name") (current.String "version")
        (current.String "release")).data := by
    unfold strings.HasPrefix RPM.label at hp
    exact List.isPrefixOf_iff_prefix.1 hp
  have hf := label_prefix_fields p.Name p.Version p.Release _ _ _
    (strings.not_mem_of_Contains_eq_false _ '-' hN)
    (strings.not_mem_of_Contains_eq_false _ '-' hV)
    (strings.not_mem_of_Contains_eq_false _ '-' hn)
    (strings.not_mem_of_Contains_eq_false _ '-' hv) hpre
  refine ⟨fun hR => ?_, fun hR hV0 => ?_, fun hR hV0 => ?_⟩
  · obtain ⟨h1, h2, h3⟩ := hf.1 hR
    exact ⟨h1, h2, List.isPrefixOf_iff_prefix.2 h3⟩
  · obtain ⟨h1, h2⟩ := hf.2.1 hR hV0
    exact ⟨h1, List.isPrefixOf_iff_prefix.2 h2⟩
  · exact List.isPrefixOf_iff_prefix.2 (hf.2.2 hR hV0)

/-- Witness of C18, amended: desired foo 1.0 1 against the installed foo 1.0 10. -/
theorem C18_not_different_fields_witness :
    (installed "foo" "1.0" "10").String "name" = "foo" ∧
    (installed "foo" "1.0" "10").String "version" = "1.0" ∧
    strings.HasPrefix ((installed "foo" "1.0" "10").String "release") "1" = true :=
  ((C18_not_different_fields { Name := "foo", Version := "1.0", Release := "1" }
    (installed "foo" "1.0" "10") rfl (by decide)).2 (by decide) (by decide) (by decide)
    (by decide)).1 (by decide)

end Wksctl
